import Mathlib

/-!
Verification of the busfile tool chain (bus2pwl / busparse / busverify).

This file is a shallow embedding, in Lean 4, of the Python sources
`bus/busparse.py`, `bus/bus2pwl.py`, `bus/busverify.py` and
`bus2pwl/bus2pwl.py`.  Strings are modelled as `List Char`, exact decimal
values (Python `decimal.Decimal`) as `ℚ`, Python ints as `ℤ`/`ℕ`, and
Python exceptions as an explicit error type.  Every definition follows the
corresponding Python function line by line; the theorems at the end of the
file settle the specification claims against these definitions.
-/

set_option maxRecDepth 10000

/-- Python exceptions that the embedded code can raise.  `nameError` models a
`NameError` caused by evaluating an identifier that is not defined at
runtime (for example the undefined `ParamError` in `busparse.read_params`). -/
inductive PyError where
  | paramMissing (param : String)
  | nameExpand (signal : String)
  | vectorRange (vector : List Char)
  | nameError (name : String)
  | assertionError (msg : String)
  | valueError (msg : String)
  | indexError
deriving DecidableEq

/-- Result of running a piece of embedded Python code: a value, or a raised
exception. -/
inductive PyResult (α : Type) where
  | ok (val : α)
  | error (e : PyError)
deriving DecidableEq

/-! ### Python primitives used by the sources -/

/-- Python `str.lower` on one ASCII character. -/
def pyLower (c : Char) : Char :=
  if 65 ≤ c.toNat ∧ c.toNat ≤ 90 then Char.ofNat (c.toNat + 32) else c

/-- Python `str.lower` over a character list. -/
def pyLowerL (cs : List Char) : List Char := cs.map pyLower

/-- Python `s.split(sep)` for a one-character separator `sep`:
always returns at least one (possibly empty) piece. -/
def pySplit (sep : Char) : List Char → List (List Char)
  | [] => [[]]
  | c :: rest =>
    match pySplit sep rest with
    | [] => [[]]
    | w :: ws => if c = sep then [] :: w :: ws else (c :: w) :: ws

/-- Python `<` on strings: lexicographic comparison by code point. -/
def pyStrLt : List Char → List Char → Bool
  | _ :: _, [] => false
  | [], [] => false
  | [], _ :: _ => true
  | x :: xs, y :: ys =>
    if x.toNat < y.toNat then true
    else if y.toNat < x.toNat then false
    else pyStrLt xs ys

/-- Value of one character as a digit, as accepted by Python `int(s, base)`:
`0`-`9`, `a`-`z`, `A`-`Z`. -/
def pyDigVal (c : Char) : Option ℕ :=
  if 48 ≤ c.toNat ∧ c.toNat ≤ 57 then some (c.toNat - 48)
  else if 97 ≤ c.toNat ∧ c.toNat ≤ 122 then some (c.toNat - 87)
  else if 65 ≤ c.toNat ∧ c.toNat ≤ 90 then some (c.toNat - 55)
  else none

/-- Python `int(s, base)` on an unsigned digit string: `none` models a raised
`ValueError` (empty string or a digit not below the base). -/
def pyIntNat (base : ℕ) (cs : List Char) : Option ℕ :=
  if cs = [] then none
  else
    cs.foldl
      (fun acc c =>
        acc.bind fun a =>
          (pyDigVal c).bind fun v =>
            if v < base then some (base * a + v) else none)
      (some 0)

/-- Python `int(s, base)` with an optional sign. -/
def pyIntBase (base : ℕ) (cs : List Char) : Option ℤ :=
  match cs with
  | c :: r =>
    if c = '+' then (pyIntNat base r).map (fun n => (n : ℤ))
    else if c = '-' then (pyIntNat base r).map (fun n => -(n : ℤ))
    else (pyIntNat base (c :: r)).map (fun n => (n : ℤ))
  | [] => none

/-- Python `int(s)` (base 10). -/
def pyInt (cs : List Char) : Option ℤ := pyIntBase 10 cs

/-- Binary digits of `n`, least significant first, computed with the fuel
pattern so that the kernel can evaluate it (`fuel ≥ n` suffices). -/
def natBinAux : ℕ → ℕ → List Char
  | _, 0 => []
  | 0, _ + 1 => []
  | fuel + 1, n + 1 =>
    (if (n + 1) % 2 = 1 then '1' else '0') :: natBinAux fuel ((n + 1) / 2)

/-- Python `bin(n)[2:]` for `n ≥ 0`: binary digits, most significant first,
with `"0"` for zero. -/
def natBin (n : ℕ) : List Char := if n = 0 then ['0'] else (natBinAux n n).reverse

/-- Python `bin(z)[2:]`: for a negative int the slice keeps the `b` of the
`-0b` marker. -/
def pyBinDrop2 (z : ℤ) : List Char :=
  if z < 0 then 'b' :: natBin z.natAbs else natBin z.toNat

/-- Python `str.zfill`: left-pad with `'0'` up to `w` characters, keeping a
leading sign character in place. -/
def zfill (cs : List Char) (w : ℕ) : List Char :=
  if w ≤ cs.length then cs
  else
    match cs with
    | c :: rest =>
      if c = '-' ∨ c = '+' then c :: (List.replicate (w - cs.length) '0' ++ rest)
      else List.replicate (w - cs.length) '0' ++ (c :: rest)
    | [] => List.replicate w '0'

/-- Number of elements of Python `range(a, b, step)` (CPython's formula). -/
def pyRangeLen (a b step : ℤ) : ℕ :=
  if 0 < step then (if a < b then ((b - a - 1) / step + 1).toNat else 0)
  else if step < 0 then (if b < a then ((a - b - 1) / (-step) + 1).toNat else 0)
  else 0

/-- Python `list(range(a, b, step))`. -/
def pyRange (a b step : ℤ) : List ℤ :=
  (List.range (pyRangeLen a b step)).map (fun i => a + step * i)

/-! ### `busparse.bin_str` and `bus2pwl.parse_word` -/

/-- Embedding of `bin_str` (`bus/busparse.py`): expand a `0x` hex token to a
bit string of four bits per hex digit, strip a `0b` marker, and pass any
other token through verbatim.  `error` models the `ValueError` that
`int(tok[2:], 16)` raises on a malformed hex part. -/
def bin_str (tok : List Char) : PyResult (List Char) :=
  if ['0', 'x'].isPrefixOf tok then
    match pyIntBase 16 (tok.drop 2) with
    | none => .error (.valueError "invalid literal for int() with base 16")
    | some v => .ok (zfill (pyBinDrop2 v) (4 * (tok.length - 2)))
  else if ['0', 'b'].isPrefixOf tok then .ok (tok.drop 2)
  else .ok tok

/-- Embedding of `parse_word` (`bus2pwl/bus2pwl.py`), whose body is
character-for-character the same conversion as `bin_str`. -/
def parse_word (tok : List Char) : PyResult (List Char) :=
  if ['0', 'x'].isPrefixOf tok then
    match pyIntBase 16 (tok.drop 2) with
    | none => .error (.valueError "invalid literal for int() with base 16")
    | some v => .ok (zfill (pyBinDrop2 v) (4 * (tok.length - 2)))
  else if ['0', 'b'].isPrefixOf tok then .ok (tok.drop 2)
  else .ok tok

/-! ### `busparse.expand_vector` -/

/-- Conversion of the start bound of a vector range, from
`busparse.expand_vector`: the `0x`/`0b` tests run against the raw piece
(which still carries its leading parenthesis, so they can never fire), and
the fallback strips one leading character and parses base 10. -/
def vectorStartVal (s : List Char) : Option ℤ :=
  if ['0', 'x'].isPrefixOf (pyLowerL s) then pyIntBase 16 (s.drop 3)
  else if ['0', 'b'].isPrefixOf (pyLowerL s) then pyIntBase 2 (s.drop 3)
  else pyInt (s.drop 1)

/-- Conversion of the stop bound of a vector range, from
`busparse.expand_vector`: `0x`/`0b` prefixes are honoured and the trailing
parenthesis is stripped. -/
def vectorStopVal (s : List Char) : Option ℤ :=
  if ['0', 'x'].isPrefixOf (pyLowerL s) then pyIntBase 16 ((s.drop 2).dropLast)
  else if ['0', 'b'].isPrefixOf (pyLowerL s) then pyIntBase 2 ((s.drop 2).dropLast)
  else pyInt s.dropLast

/-- The test `stop > 2**n_bits` from `busparse.expand_vector`.  For a
negative bit count Python computes a float `2**n_bits` strictly between 0
and 1, so an integer `stop` exceeds it exactly when `1 ≤ stop`. -/
def stopOverflows (stop nBits : ℤ) : Bool :=
  if 0 ≤ nBits then decide ((2 : ℤ) ^ nBits.toNat < stop) else decide (1 ≤ stop)

/-- Shared tail of `busparse.expand_vector` after the `range_parts` list has
been split: converts the bounds, checks the bit budget, fixes the step
direction by Python string comparison of the raw pieces (`cmpA`, `cmpB`),
and renders the range. -/
def expandVectorCore (tok : List Char) (nBits : ℤ) (cmpA cmpB : List Char)
    (step : ℤ) (startS stopS : List Char) : PyResult (List (List Char)) :=
  match vectorStartVal startS with
  | none => .error (.valueError "invalid literal for int()")
  | some start =>
    match vectorStopVal stopS with
    | none => .error (.valueError "invalid literal for int()")
    | some stop =>
      if stopOverflows stop nBits then .error (.vectorRange tok)
      else
        let direction : ℤ := if pyStrLt cmpA cmpB then 1 else -1
        if step * direction = 0 then .error (.valueError "range() arg 3 must not be zero")
        else
          .ok ((pyRange (min start stop) (max start stop + 1) (step * direction)).map
            (fun n => zfill (pyBinDrop2 n) nBits.toNat))

/-- Embedding of `expand_vector` (`bus/busparse.py`): expand a
`[N](start,stop)` or `[N](start,step,stop)` token into a list of bit
strings.  `indexError`, `assertionError` and `valueError` model the
exceptions `expand_vector` lets escape on malformed tokens; `vectorRange`
models `VectorRangeError`. -/
def expand_vector (tok : List Char) : PyResult (List (List Char)) :=
  match pySplit ']' tok with
  | [] => .error .indexError
  | p0 :: restParts =>
    match pyInt (p0.drop 1) with
    | none => .error (.valueError "invalid literal for int()")
    | some nBits =>
      match restParts with
      | [] => .error .indexError
      | p1 :: _ =>
        match pySplit ',' p1 with
        | [s0, s1] => expandVectorCore tok nBits s0 s1 1 s0 s1
        | [s0, s1, s2] =>
          match pyInt s1 with
          | none => .error (.valueError "invalid literal for int()")
          | some step => expandVectorCore tok nBits s0 s1 step s0 s2
        | _ => .error (.assertionError "len(range_parts) in (2,3)")

/-! ### `busparse.read_params` -/

/-- Truthiness, in the Python sense, of a parameter slot that holds either
`None` or a string (`not params[p]` is true for `None` and for `""`). -/
def pyTruthyOpt : Option String → Bool
  | none => false
  | some s => !(s == "")

/-- The parameter dictionary built by `busparse.read_params`: keys in
insertion order, each mapped to `None` (`none`) or a string value. -/
abbrev ParamsDict : Type := List (String × Option String)

/-- The dictionary as initialised at the top of `read_params`: the optional
parameters with their defaults, then every required parameter set to
`None`. -/
def initParams : ParamsDict :=
  [("edge", some "rising"), ("clockdelay", none), ("clockrisefall", none),
   ("tsu", none), ("th", none),
   ("risefall", none), ("bittime", none), ("bitlow", none), ("bithigh", none)]

/-- One iteration of the parameter-reading loop: `if name in params:
params[name] = value` — an unknown name is logged and ignored, so the key
set never grows. -/
def paramUpdate (d : ParamsDict) (name : String) (v : String) : ParamsDict :=
  if (d.lookup name).isSome then
    d.map (fun kv => if kv.1 = name then (kv.1, some v) else kv)
  else d

/-- Python `str.lower` on a `String`. -/
def pyLowerStr (s : String) : String := ⟨pyLowerL s.data⟩

/-- The parameter-reading loop of `read_params` over the `name=value` pairs
of the busfile (names are lowercased before the membership test). -/
def read_params_dict (lines : List (String × String)) : ParamsDict :=
  lines.foldl (fun d nv => paramUpdate d (pyLowerStr nv.1) nv.2) initParams

/-- Dictionary access `params[p]` for the keys `read_params` guarantees to
exist. -/
def getParam (d : ParamsDict) (k : String) : Option String :=
  match d.lookup k with
  | some v => v
  | none => none

/-- Display of a parameter slot inside an assertion message. -/
def pvRepr : Option String → String
  | none => "None"
  | some s => s

/-- The required-parameter loop at the end of `read_params`:
`for p in required_params: if not params[p]: raise ParamError(p)`.
`ParamError` is not defined anywhere in `busparse.py` (the defined class is
`ParamMissingError`), so evaluating it raises `NameError`. -/
def checkRequiredLoop : List String → ParamsDict → PyResult Unit
  | [], _ => .ok ()
  | p :: rest, d =>
    if pyTruthyOpt (getParam d p) then checkRequiredLoop rest d
    else .error (.nameError "ParamError")

/-- The required parameters, in the order `read_params` checks them. -/
def required_params : List String := ["risefall", "bittime", "bitlow", "bithigh"]

/-- Final checks of `read_params`: the required-parameter loop followed by
`assert params['edge'] in ('rising', 'falling')`. -/
def checkRequired (d : ParamsDict) : PyResult ParamsDict :=
  match checkRequiredLoop required_params d with
  | .error e => .error e
  | .ok _ =>
    if getParam d "edge" = some "rising" ∨ getParam d "edge" = some "falling" then .ok d
    else .error (.assertionError ("Invalid edge value: " ++ pvRepr (getParam d "edge")))

/-- The guard `parse_busfile` runs when it meets an `Outputs:` line:
`assert 'th' in file_contents['params'].keys()` and the same for `'tsu'`.
It tests key membership, not whether a value was ever assigned. -/
def outputsGuard (d : ParamsDict) : PyResult Unit :=
  if (d.lookup "th").isSome then
    if (d.lookup "tsu").isSome then .ok ()
    else .error (.assertionError "Outputs were specified for verification but no setup time was specified")
  else .error (.assertionError "Outputs were specified for verification but no hold time was specified")

/-! ### `bus2pwl.gen_signal` (from `bus/bus2pwl.py`) -/

/-- The numeric parameters `gen_signal` extracts from the parameter
dictionary via `unit`, as exact decimals. -/
structure SigParams where
  bithigh : ℚ
  bitlow : ℚ
  risefall : ℚ
  bittime : ℚ
  clockrisefall : ℚ
deriving DecidableEq

/-- The lambda `vbit` of `gen_signal`: voltage of a bit character. -/
def vbit (p : SigParams) (bit : Char) : ℚ := if bit = '1' then p.bithigh else p.bitlow

/-- The adjusted bit period of `gen_signal`:
`bittime += (clockrisefall + (clockrisefall - trf))`. -/
def effectiveBittime (p : SigParams) : ℚ :=
  p.bittime + (p.clockrisefall + (p.clockrisefall - p.risefall))

/-- The loop of `gen_signal` over `vector[1:]`, carrying the running time
`t` and the previous bit, and emitting two `(time, voltage)` breakpoints on
each change (the time reference is then re-anchored by `t += trf`). -/
def genSignalAux (p : SigParams) (bt : ℚ) : List Char → ℚ → Char → List (ℚ × ℚ)
  | [], _, _ => []
  | bit :: rest, t, lastbit =>
    if bit ≠ lastbit then
      (t + bt, vbit p lastbit) ::
      (t + bt + p.risefall, vbit p bit) ::
      genSignalAux p bt rest (t + bt + p.risefall) bit
    else genSignalAux p bt rest (t + bt) lastbit

/-- Embedding of `gen_signal` (`bus/bus2pwl.py`): the ordered list of PWL
`(time, voltage)` breakpoints emitted for a bit vector (the `+ t v` lines of
the source string).  `none` models the `IndexError` that `vector[0]` raises
on an empty vector. -/
def gen_signal (p : SigParams) (vector : List Char) : Option (List (ℚ × ℚ)) :=
  match vector with
  | [] => none
  | b :: rest => some ((0, vbit p b) :: genSignalAux p (effectiveBittime p) rest 0 b)

/-! ### `unit` (from `bus2pwl/bus2pwl.py`) -/

/-- The character class of the first group of `RE_UNIT`, `[0-9e+-.]`. -/
def inUnitClass (c : Char) : Bool :=
  (48 ≤ c.toNat && c.toNat ≤ 57) || c == 'e' || c == '+' || c == '-' || c == '.'

/-- ASCII digit test (Python `str.isdigit` on ASCII input). -/
def pyIsDigit (c : Char) : Bool := 48 ≤ c.toNat && c.toNat ≤ 57

/-- Value of an unsigned digit run, base 10. -/
def digitsToNat (ds : List Char) : ℕ := ds.foldl (fun a c => 10 * a + (c.toNat - 48)) 0

/-- Mantissa of a `Decimal` literal: digits, optionally followed by a dot
and fraction digits; at least one digit overall.  Returns the integer and
fraction digit runs. -/
def parseMantParts (cs : List Char) : Option (List Char × List Char) :=
  let ip := cs.takeWhile pyIsDigit
  let rest := cs.dropWhile pyIsDigit
  match rest with
  | [] => if ip = [] then none else some (ip, [])
  | '.' :: fp =>
    if fp.all pyIsDigit ∧ (ip ≠ [] ∨ fp ≠ []) then some (ip, fp) else none
  | _ => none

/-- Exponent part of a `Decimal` literal (after the `e`). -/
def parseExpInt : List Char → Option ℤ
  | '+' :: ds => if ds ≠ [] ∧ ds.all pyIsDigit then some ((digitsToNat ds : ℤ)) else none
  | '-' :: ds => if ds ≠ [] ∧ ds.all pyIsDigit then some (-(digitsToNat ds : ℤ)) else none
  | ds => if ds ≠ [] ∧ ds.all pyIsDigit then some ((digitsToNat ds : ℤ)) else none

/-- Optional sign at the front of a `Decimal` literal. -/
def splitSign (cs : List Char) : Bool × List Char :=
  match cs with
  | c :: r => if c = '-' then (true, r) else if c = '+' then (false, r) else (false, cs)
  | [] => (false, [])

/-- Decomposition of a `Decimal` literal: sign, integer digits, fraction
digits and exponent.  All fields are decidable data so that the kernel can
evaluate the parser on concrete strings. -/
def parseDecParts (cs : List Char) : Option (Bool × List Char × List Char × ℤ) :=
  let sm := splitSign (cs.takeWhile (fun c => c ≠ 'e'))
  match cs.dropWhile (fun c => c ≠ 'e') with
  | [] => (parseMantParts sm.2).map fun p => (sm.1, p.1, p.2, (0 : ℤ))
  | _ :: ex =>
    (parseMantParts sm.2).bind fun p =>
      (parseExpInt ex).map fun z => (sm.1, p.1, p.2, z)

/-- Exact power of ten with an integer exponent. -/
def pow10 (z : ℤ) : ℚ := if 0 ≤ z then ((10 : ℚ) ^ z.toNat) else 1 / (10 : ℚ) ^ (-z).toNat

/-- Exact rational value of a decomposed `Decimal` literal. -/
def decValue (neg : Bool) (ip fp : List Char) (z : ℤ) : ℚ :=
  (if neg then -1 else 1) * ((digitsToNat ip : ℚ) + (digitsToNat fp : ℚ) / 10 ^ fp.length) *
    pow10 z

/-- Python `Decimal(s)` on a numeric literal, as an exact rational:
`none` models the `InvalidOperation` raised on a malformed literal. -/
def parseDec (cs : List Char) : Option ℚ :=
  (parseDecParts cs).map fun t => decValue t.1 t.2.1 t.2.2.1 t.2.2.2

/-- The `mult` dictionary of `unit`: engineering suffixes and their exact
decimal multipliers. -/
def multList : List (String × ℚ) :=
  [("t", 10 ^ 12), ("g", 10 ^ 9), ("meg", 10 ^ 6), ("x", 10 ^ 6), ("k", 10 ^ 3),
   ("mil", 254 / 10 ^ 7), ("m", 1 / 10 ^ 3), ("u", 1 / 10 ^ 6), ("n", 1 / 10 ^ 9),
   ("p", 1 / 10 ^ 12), ("f", 1 / 10 ^ 15)]

/-- The second group of `RE_UNIT`, `(t|g|meg|x|k|mil|m|u|n|p|f)?`, matched
at the end of the numeric prefix: regex alternation tries the alternatives
in written order, so `meg` and `mil` are tested before `m`. -/
def sufMatch (r : List Char) : Option String :=
  if ['t'].isPrefixOf r then some "t"
  else if ['g'].isPrefixOf r then some "g"
  else if ['m', 'e', 'g'].isPrefixOf r then some "meg"
  else if ['x'].isPrefixOf r then some "x"
  else if ['k'].isPrefixOf r then some "k"
  else if ['m', 'i', 'l'].isPrefixOf r then some "mil"
  else if ['m'].isPrefixOf r then some "m"
  else if ['u'].isPrefixOf r then some "u"
  else if ['n'].isPrefixOf r then some "n"
  else if ['p'].isPrefixOf r then some "p"
  else if ['f'].isPrefixOf r then some "f"
  else none

/-- Embedding of `unit` (`bus2pwl/bus2pwl.py`): lowercase the input, match
`RE_UNIT` (a greedy run of `[0-9e+-.]` and an optional engineering suffix),
convert the prefix with `Decimal` and scale by the suffix multiplier.
`none` models the fatal `error(...)` branch. -/
def unit (s : String) : Option ℚ :=
  let l := pyLowerL s.data
  let pre := l.takeWhile (fun c => inUnitClass c)
  if pre = [] then none
  else
    match sufMatch (l.dropWhile (fun c => inUnitClass c)) with
    | some suf =>
      match multList.lookup suf with
      | some m => (parseDec pre).map (fun q => q * m)
      | none => none
    | none => parseDec pre

/-! ### `gen_clock` (from `bus/bus2pwl.py`) -/

/-- The parameter dictionary as seen by `gen_clock`, after `parse_busfile`
has succeeded: required parameters are value strings, optional ones are
`None` or strings, and the two slots `gen_clock` writes are absent
(`none`). -/
structure BusParams where
  risefall : String
  bittime : String
  bitlow : String
  bithigh : String
  edge : String
  clockdelay : Option String
  clockrisefall : Option String
  tsu : Option String
  th : Option String
  clockhigh : Option ℚ
  clockperiod : Option ℚ
deriving DecidableEq

/-- The state of the parameter dictionary after `gen_clock` has run: the
function converts `bittime` and the clock rise/fall time and then *writes
`clockhigh` and `clockperiod` back into the dictionary* ("Write these
values back into params to ease string formatting").  `none` models a
`unit` failure. -/
def genClockParams (p : BusParams) : Option BusParams :=
  (unit p.bittime).bind fun bittime =>
    (unit (match p.clockrisefall with
           | some s => if s = "" then p.risefall else s
           | none => p.risefall)).bind fun crf =>
      some { p with clockhigh := some ((1 / 2 : ℚ) * (bittime - crf)),
                    clockperiod := some (bittime + 2 * crf) }

/-- The edge dispatch at the end of `gen_clock`: `rising` and `falling`
produce a PULSE line; any other value reaches
`raise ValueError(... .format(params['edge']))`, whose message evaluates the
undefined name `params` and therefore raises `NameError` instead. -/
def genClockEdge (edge : String) : PyResult Unit :=
  if edge = "rising" then .ok ()
  else if edge = "falling" then .ok ()
  else .error (.nameError "params")

/-! ### `busverify` (from `bus/busverify.py`) -/

/-- Python `abs` on an exact decimal. -/
def pyAbs (q : ℚ) : ℚ := if q < 0 then -q else q

/-- The loop of `clockedge_index`: walk the time axis, remembering the index
of the last sample with `abs(time) < target`, and stop at the first sample
at or past the target. -/
def clockedgeAux (target : ℚ) : ℕ → ℕ → List ℚ → ℕ
  | _, acc, [] => acc
  | i, acc, t :: rest =>
    if pyAbs t < target then clockedgeAux target (i + 1) i rest else acc

/-- Embedding of `clockedge_index` (`bus/busverify.py`). -/
def clockedge_index (timeArr : List ℚ) (target : ℚ) : ℕ := clockedgeAux target 0 0 timeArr

/-- The numeric context of `busverify`'s per-signal loop. -/
structure VCtx where
  bitlow : ℚ
  bithigh : ℚ
  tsu : ℚ
  th : ℚ
  clockrisefall : ℚ
deriving DecidableEq

/-- The threshold of `busverify`:
`logic_thresh = (logic_hi - logic_lo) * D(0.75)` (the float `0.75` is the
exact decimal 3/4).  Note that `logic_lo` is *subtracted but not added
back*. -/
def logicThresh (c : VCtx) : ℚ := (c.bithigh - c.bitlow) * (3 / 4)

/-- Result of checking one expected bit in `busverify`. -/
structure BitSample where
  su : ℕ
  hold : ℕ
  vavg : ℚ
  bit : Char
deriving DecidableEq

/-- One iteration of the per-bit loop of `busverify`: locate the setup and
hold sample indices (scanning forward from the previous hold index), average
the trace over the window (or take the single sample when the indices
coincide), and classify against `logic_thresh` with a strict `>`. -/
def verifyBit (c : VCtx) (timeArr trace : List ℚ) (holdPrev : ℕ) (edgeTime : ℚ) :
    BitSample :=
  let edgeSuTime := edgeTime - c.tsu
  let edgeHoldTime := edgeTime + c.th + c.clockrisefall
  let su := holdPrev + clockedge_index (timeArr.drop holdPrev) edgeSuTime
  let hold := su + clockedge_index (timeArr.drop su) edgeHoldTime
  let vavg :=
    if hold - su ≠ 0 then
      ((trace.drop su).take (hold + 1 - su)).sum / ((hold : ℚ) - (su : ℚ) + 1)
    else trace.getD su 0
  let bit := if vavg > logicThresh c then '1' else '0'
  ⟨su, hold, vavg, bit⟩

/-! ### Decoding helpers used to state the claims -/

/-- Value of one bit character (`'1'` is one, anything else zero). -/
def bitVal (c : Char) : ℕ := if c = '1' then 1 else 0

/-- Value of a bit string, most significant bit first. -/
def bitsVal (l : List Char) : ℕ := l.foldl (fun a c => 2 * a + bitVal c) 0

/-- Hexadecimal digit test (`0`-`9`, `a`-`f`, `A`-`F`). -/
def isHexDigitChar (c : Char) : Bool :=
  (48 ≤ c.toNat && c.toNat ≤ 57) || (97 ≤ c.toNat && c.toNat ≤ 102) ||
    (65 ≤ c.toNat && c.toNat ≤ 70)

/-- Value of one hexadecimal digit. -/
def hexDigVal (c : Char) : ℕ :=
  if 48 ≤ c.toNat ∧ c.toNat ≤ 57 then c.toNat - 48
  else if 97 ≤ c.toNat then c.toNat - 87
  else c.toNat - 55

/-- Value of a hexadecimal digit string, most significant digit first. -/
def hexVal (ds : List Char) : ℕ := ds.foldl (fun a c => 16 * a + hexDigVal c) 0

/-! ### General lemmas: character classes and scanning -/

theorem pyLower_of_digit (c : Char) (h : pyIsDigit c = true) : pyLower c = c := by
  unfold pyIsDigit at h
  simp only [Bool.and_eq_true, decide_eq_true_eq] at h
  unfold pyLower
  rw [if_neg]
  omega

theorem pyIsDigit_inUnitClass (c : Char) (h : pyIsDigit c = true) : inUnitClass c = true := by
  unfold pyIsDigit at h
  simp only [Bool.and_eq_true, decide_eq_true_eq] at h
  unfold inUnitClass
  simp only [Bool.or_eq_true, Bool.and_eq_true, decide_eq_true_eq]
  left
  left
  left
  left
  exact ⟨h.1, h.2⟩

theorem pyLower_of_inUnitClass (c : Char) (h : inUnitClass c = true) : pyLower c = c := by
  unfold inUnitClass at h
  simp only [Bool.or_eq_true, Bool.and_eq_true, decide_eq_true_eq, beq_iff_eq] at h
  rcases h with ((((h | h) | h) | h) | h)
  · unfold pyLower
    rw [if_neg]
    omega
  · subst h; decide
  · subst h; decide
  · subst h; decide
  · subst h; decide

theorem takeWhile_all_true (p : Char → Bool) (xs : List Char)
    (hxs : ∀ c ∈ xs, p c = true) :
    xs.takeWhile p = xs ∧ xs.dropWhile p = [] := by
  induction xs with
  | nil => exact ⟨rfl, rfl⟩
  | cons x xs ih =>
    have hx : p x = true := hxs x (by simp)
    have hr := ih (fun c hc => hxs c (by simp [hc]))
    simp [List.takeWhile_cons, List.dropWhile_cons, hx, hr.1, hr.2]

theorem takeWhile_append_stop (p : Char → Bool) (xs : List Char) (y : Char) (ys : List Char)
    (hxs : ∀ c ∈ xs, p c = true) (hy : p y = false) :
    (xs ++ y :: ys).takeWhile p = xs ∧ (xs ++ y :: ys).dropWhile p = y :: ys := by
  induction xs with
  | nil => simp [List.takeWhile_cons, List.dropWhile_cons, hy]
  | cons x xs ih =>
    have hx : p x = true := hxs x (by simp)
    have hr := ih (fun c hc => hxs c (by simp [hc]))
    simp [List.takeWhile_cons, List.dropWhile_cons, hx, hr.1, hr.2]

theorem pyLowerL_fixed (cs : List Char) (h : ∀ c ∈ cs, pyLower c = c) :
    pyLowerL cs = cs := by
  unfold pyLowerL
  induction cs with
  | nil => rfl
  | cons x xs ih =>
    have := h x (by simp)
    simp [this, ih (fun c hc => h c (by simp [hc]))]

/-! ### General lemmas: `unit` on digit strings and suffixed literals -/

theorem splitSign_of_digits (ds : List Char) (hd : ∀ c ∈ ds, pyIsDigit c = true) :
    splitSign ds = (false, ds) := by
  cases ds with
  | nil => rfl
  | cons c r =>
    have hc : pyIsDigit c = true := hd c (by simp)
    have h1 : c ≠ '-' := by
      intro h
      rw [h] at hc
      exact absurd hc (by decide)
    have h2 : c ≠ '+' := by
      intro h
      rw [h] at hc
      exact absurd hc (by decide)
    show (if c = '-' then ((true : Bool), r)
          else if c = '+' then ((false : Bool), r)
          else ((false : Bool), c :: r)) = ((false : Bool), c :: r)
    rw [if_neg h1, if_neg h2]

theorem parseMantParts_digits (ds : List Char) (hne : ds ≠ [])
    (hd : ∀ c ∈ ds, pyIsDigit c = true) :
    parseMantParts ds = some (ds, []) := by
  have h := takeWhile_all_true pyIsDigit ds hd
  unfold parseMantParts
  rw [h.1, h.2]
  simp [hne]

theorem digit_ne_e (c : Char) (h : pyIsDigit c = true) : (decide ¬(c = 'e')) = true := by
  unfold pyIsDigit at h
  simp only [Bool.and_eq_true, decide_eq_true_eq] at h
  simp only [decide_eq_true_eq]
  intro hc
  subst hc
  revert h
  decide

theorem parseDecParts_digits (ds : List Char) (hne : ds ≠ [])
    (hd : ∀ c ∈ ds, pyIsDigit c = true) :
    parseDecParts ds = some (false, ds, [], 0) := by
  have he := takeWhile_all_true (fun c => decide ¬(c = 'e')) ds
    (fun c hc => digit_ne_e c (hd c hc))
  unfold parseDecParts
  rw [he.1, he.2]
  simp only [splitSign_of_digits ds hd]
  simp [parseMantParts_digits ds hne hd]

theorem digitsToNat_nil : digitsToNat [] = 0 := rfl

theorem unit_digits (s : String) (hne : s.data ≠ [])
    (hd : ∀ c ∈ s.data, pyIsDigit c = true) :
    unit s = some ((digitsToNat s.data : ℚ)) := by
  have hlow : pyLowerL s.data = s.data :=
    pyLowerL_fixed s.data (fun c hc => pyLower_of_digit c (hd c hc))
  have hcl := takeWhile_all_true (fun c => inUnitClass c) s.data
    (fun c hc => pyIsDigit_inUnitClass c (hd c hc))
  rw [unit, hlow, hcl.1, hcl.2]
  rw [if_neg hne]
  rw [show sufMatch ([] : List Char) = none from rfl]
  rw [parseDec, parseDecParts_digits s.data hne hd]
  simp only [Option.map_some']
  rw [show decValue false s.data [] 0 = ((digitsToNat s.data : ℚ)) from by
    unfold decValue
    norm_num [pow10, digitsToNat_nil]]

theorem parseDec_nil : parseDec [] = none := rfl

theorem unit_append_suffix (pre : List Char) (q : ℚ) (suf : String) (m : ℚ)
    (hclass : ∀ c ∈ pre, inUnitClass c = true)
    (hq : parseDec pre = some q)
    (hlow : ∀ c ∈ suf.data, pyLower c = c)
    (hsufne : suf.data ≠ [])
    (hfc : inUnitClass (suf.data.headD '0') = false)
    (hmatch : sufMatch suf.data = some suf)
    (hlook : multList.lookup suf = some m) :
    unit ⟨pre ++ suf.data⟩ = some (q * m) := by
  have hpre_ne : pre ≠ [] := by
    intro h
    subst h
    rw [parseDec_nil] at hq
    cases hq
  obtain ⟨y, ys, hyd⟩ : ∃ y ys, suf.data = y :: ys := by
    cases hd : suf.data with
    | nil => exact absurd hd hsufne
    | cons a b => exact ⟨a, b, rfl⟩
  have hlowall : pyLowerL (pre ++ suf.data) = pre ++ suf.data := by
    apply pyLowerL_fixed
    intro c hc
    rcases List.mem_append.mp hc with h | h
    · exact pyLower_of_inUnitClass c (hclass c h)
    · exact hlow c h
  have hyc : inUnitClass y = false := by
    rw [hyd] at hfc
    simpa using hfc
  have hstop := takeWhile_append_stop (fun c => inUnitClass c) pre y ys hclass hyc
  have h1 : (pre ++ suf.data).takeWhile (fun c => inUnitClass c) = pre := by
    rw [hyd]
    exact hstop.1
  have h2 : (pre ++ suf.data).dropWhile (fun c => inUnitClass c) = suf.data := by
    rw [hyd]
    exact hstop.2
  rw [unit]
  rw [show (String.mk (pre ++ suf.data)).data = pre ++ suf.data from rfl]
  rw [hlowall, h1, h2, if_neg hpre_ne, hmatch]
  simp only [hlook, hq, Option.map_some']

/-! ### General lemmas: `gen_signal` -/

theorem genSignalAux_replicate (p : SigParams) (bt : ℚ) (n : ℕ) (b : Char) (t : ℚ) :
    genSignalAux p bt (List.replicate n b) t b = [] := by
  induction n generalizing t with
  | zero => rfl
  | succ n ih =>
    rw [List.replicate_succ]
    simp only [genSignalAux, ne_eq, not_true_eq_false, if_false, ite_false]
    simp [ih]

theorem genSignalAux_skip (p : SigParams) (bt : ℚ) (n : ℕ) (b : Char) (l : List Char) (t : ℚ) :
    genSignalAux p bt (List.replicate n b ++ l) t b =
      genSignalAux p bt l (t + n * bt) b := by
  induction n generalizing t with
  | zero => simp
  | succ n ih =>
    rw [List.replicate_succ, List.cons_append]
    simp only [genSignalAux, ne_eq, not_true_eq_false, if_false, ite_false]
    simp only [ih]
    congr 1
    push_cast
    ring

theorem gen_signal_first_change (p : SigParams) (b c : Char) (k : ℕ) (rest : List Char)
    (hbc : b ≠ c) :
    gen_signal p (List.replicate (k + 1) b ++ c :: rest) =
      some ((0, vbit p b) ::
            (((k : ℚ) + 1) * effectiveBittime p, vbit p b) ::
            (((k : ℚ) + 1) * effectiveBittime p + p.risefall, vbit p c) ::
            genSignalAux p (effectiveBittime p) rest
              (((k : ℚ) + 1) * effectiveBittime p + p.risefall) c) := by
  rw [List.replicate_succ, List.cons_append]
  simp only [gen_signal]
  congr 1
  congr 1
  rw [genSignalAux_skip]
  simp only [genSignalAux, ne_eq]
  rw [if_pos (Ne.symm hbc)]
  rw [show (0 : ℚ) + (k : ℚ) * effectiveBittime p + effectiveBittime p =
        ((k : ℚ) + 1) * effectiveBittime p from by ring]

theorem gen_signal_constant (p : SigParams) (b : Char) (n : ℕ) :
    gen_signal p (List.replicate (n + 1) b) = some [(0, vbit p b)] := by
  rw [List.replicate_succ]
  simp only [gen_signal]
  rw [genSignalAux_replicate]

theorem gen_signal_two_blocks (p : SigParams) (b c : Char) (k m : ℕ) (hbc : b ≠ c) :
    gen_signal p (List.replicate (k + 1) b ++ List.replicate (m + 1) c) =
      some [(0, vbit p b),
            (((k : ℚ) + 1) * effectiveBittime p, vbit p b),
            (((k : ℚ) + 1) * effectiveBittime p + p.risefall, vbit p c)] := by
  rw [show List.replicate (m + 1) c = c :: List.replicate m c from List.replicate_succ c m]
  rw [gen_signal_first_change p b c k (List.replicate m c) hbc]
  rw [genSignalAux_replicate]

/-! ### General lemmas: binary rendering (`bin(n)[2:]` and `zfill`) -/

theorem bitsVal_append_singleton (l : List Char) (d : Char) :
    bitsVal (l ++ [d]) = 2 * bitsVal l + bitVal d := by
  unfold bitsVal
  rw [List.foldl_append]
  rfl

theorem foldl_bits_zeros (z : ℕ) :
    List.foldl (fun a c => 2 * a + bitVal c) 0 (List.replicate z '0') = 0 := by
  induction z with
  | zero => rfl
  | succ z ih => rw [List.replicate_succ, List.foldl_cons]; simpa [bitVal] using ih

theorem bitsVal_pad (z : ℕ) (l : List Char) :
    bitsVal (List.replicate z '0' ++ l) = bitsVal l := by
  unfold bitsVal
  rw [List.foldl_append, foldl_bits_zeros]

theorem natBinAux_spec (fuel : ℕ) : ∀ n, n ≤ fuel →
    bitsVal (natBinAux fuel n).reverse = n ∧
    (∀ c ∈ natBinAux fuel n, c = '0' ∨ c = '1') ∧
    (∀ k, n < 2 ^ k → (natBinAux fuel n).length ≤ k) := by
  induction fuel with
  | zero =>
    intro n hn
    interval_cases n
    exact ⟨rfl, by simp [natBinAux], fun k _ => by simp [natBinAux]⟩
  | succ fuel ih =>
    intro n hn
    match n with
    | 0 => exact ⟨rfl, by simp [natBinAux], fun k _ => by simp [natBinAux]⟩
    | n + 1 =>
      have hdiv : (n + 1) / 2 ≤ fuel := by
        have := Nat.div_lt_self (Nat.succ_pos n) (by omega : 1 < 2)
        omega
      obtain ⟨hv, hc, hl⟩ := ih ((n + 1) / 2) hdiv
      have hmod : (n + 1) % 2 = 0 ∨ (n + 1) % 2 = 1 := by omega
      refine ⟨?_, ?_, ?_⟩
      · simp only [natBinAux, List.reverse_cons]
        rw [bitsVal_append_singleton, hv]
        rcases hmod with h2 | h2
        · rw [if_neg (by omega)]
          have : bitVal '0' = 0 := rfl
          rw [this]
          omega
        · rw [if_pos h2]
          have : bitVal '1' = 1 := rfl
          rw [this]
          omega
      · simp only [natBinAux]
        intro c hc'
        rcases List.mem_cons.mp hc' with h | h
        · subst h
          rcases hmod with h2 | h2
          · rw [if_neg (by omega)]
            exact Or.inl rfl
          · rw [if_pos h2]
            exact Or.inr rfl
        · exact hc c h
      · intro k hk
        match k with
        | 0 => exact absurd hk (by omega)
        | k + 1 =>
          have hk2 : (n + 1) / 2 < 2 ^ k := by
            rw [pow_succ] at hk
            rw [Nat.div_lt_iff_lt_mul (by omega : 0 < 2)]
            omega
          simp only [natBinAux, List.length_cons]
          have := hl k hk2
          omega

theorem natBin_spec (n : ℕ) :
    bitsVal (natBin n) = n ∧ (∀ c ∈ natBin n, c = '0' ∨ c = '1') ∧
    (∀ k, 1 ≤ k → n < 2 ^ k → (natBin n).length ≤ k) := by
  by_cases h : n = 0
  · subst h
    refine ⟨rfl, ?_, ?_⟩
    · intro c hc
      simp [natBin] at hc
      subst hc
      exact Or.inl rfl
    · intro k hk _
      simp [natBin]
      omega
  · obtain ⟨hv, hc, hl⟩ := natBinAux_spec n n le_rfl
    unfold natBin
    rw [if_neg h]
    refine ⟨hv, ?_, ?_⟩
    · intro c hc'
      exact hc c (List.mem_reverse.mp hc')
    · intro k _ hk
      rw [List.length_reverse]
      exact hl k hk

theorem zfill_bits (c : Char) (rest : List Char) (w : ℕ)
    (hbit : c = '0' ∨ c = '1') :
    zfill (c :: rest) w = List.replicate (w - (c :: rest).length) '0' ++ (c :: rest) ∧
    (zfill (c :: rest) w).length = max w (c :: rest).length := by
  have hcs : ¬(c = '-' ∨ c = '+') := by
    rcases hbit with h | h <;> subst h <;> decide
  have hred : zfill (c :: rest) w =
      if w ≤ (c :: rest).length then (c :: rest)
      else List.replicate (w - (c :: rest).length) '0' ++ (c :: rest) := by
    show (if w ≤ (c :: rest).length then (c :: rest)
          else
            if c = '-' ∨ c = '+' then c :: (List.replicate (w - (c :: rest).length) '0' ++ rest)
            else List.replicate (w - (c :: rest).length) '0' ++ (c :: rest)) =
        if w ≤ (c :: rest).length then (c :: rest)
        else List.replicate (w - (c :: rest).length) '0' ++ (c :: rest)
    by_cases hw : w ≤ (c :: rest).length
    · rw [if_pos hw, if_pos hw]
    · rw [if_neg hw, if_neg hw, if_neg hcs]
  rw [hred]
  by_cases hw : w ≤ (c :: rest).length
  · rw [if_pos hw]
    constructor
    · rw [show w - (c :: rest).length = 0 from by omega]
      rfl
    · rw [Nat.max_eq_right hw]
  · rw [if_neg hw]
    refine ⟨rfl, ?_⟩
    simp only [List.length_append, List.length_replicate]
    rw [Nat.max_eq_left (by omega)]
    omega

/-! ### General lemmas: `int(s, 16)` on hex digit strings -/

theorem pyDigVal_hex (c : Char) (h : isHexDigitChar c = true) :
    pyDigVal c = some (hexDigVal c) ∧ hexDigVal c < 16 := by
  unfold isHexDigitChar at h
  simp only [Bool.or_eq_true, Bool.and_eq_true, decide_eq_true_eq] at h
  unfold pyDigVal hexDigVal
  rcases h with (⟨h1, h2⟩ | ⟨h1, h2⟩) | ⟨h1, h2⟩
  · rw [if_pos ⟨h1, h2⟩, if_pos ⟨h1, h2⟩]
    exact ⟨rfl, by omega⟩
  · have d1 : ¬(48 ≤ c.toNat ∧ c.toNat ≤ 57) := by omega
    have d2 : 97 ≤ c.toNat ∧ c.toNat ≤ 122 := by omega
    have d3 : 97 ≤ c.toNat := h1
    rw [if_neg d1, if_neg d1, if_pos d2, if_pos d3]
    exact ⟨rfl, by omega⟩
  · have d1 : ¬(48 ≤ c.toNat ∧ c.toNat ≤ 57) := by omega
    have d2 : ¬(97 ≤ c.toNat ∧ c.toNat ≤ 122) := by omega
    have d3 : ¬97 ≤ c.toNat := by omega
    have d4 : 65 ≤ c.toNat ∧ c.toNat ≤ 90 := by omega
    rw [if_neg d1, if_neg d1, if_neg d2, if_neg d3, if_pos d4]
    exact ⟨rfl, by omega⟩

theorem pyIntNat16_fold (ds : List Char) (hhex : ∀ c ∈ ds, isHexDigitChar c = true) :
    ∀ a : ℕ,
      List.foldl
        (fun acc c =>
          acc.bind fun x =>
            (pyDigVal c).bind fun v =>
              if v < 16 then some (16 * x + v) else none)
        (some a) ds
      = some (List.foldl (fun x c => 16 * x + hexDigVal c) a ds) := by
  induction ds with
  | nil => intro a; rfl
  | cons c rest ih =>
    intro a
    have hd := pyDigVal_hex c (hhex c (by simp))
    simp only [List.foldl_cons, Option.some_bind, hd.1, if_pos hd.2]
    exact ih (fun x hx => hhex x (by simp [hx])) (16 * a + hexDigVal c)

theorem pyIntNat16_digits (ds : List Char) (hne : ds ≠ [])
    (hhex : ∀ c ∈ ds, isHexDigitChar c = true) :
    pyIntNat 16 ds = some (hexVal ds) := by
  unfold pyIntNat
  rw [if_neg hne]
  exact pyIntNat16_fold ds hhex 0

theorem pyIntBase16_digits (ds : List Char) (hne : ds ≠ [])
    (hhex : ∀ c ∈ ds, isHexDigitChar c = true) :
    pyIntBase 16 ds = some ((hexVal ds : ℤ)) := by
  match ds with
  | [] => exact absurd rfl hne
  | c :: r =>
    have hc := hhex c (by simp)
    have h1 : c ≠ '+' := by
      intro h
      rw [h] at hc
      exact absurd hc (by decide)
    have h2 : c ≠ '-' := by
      intro h
      rw [h] at hc
      exact absurd hc (by decide)
    show (if c = '+' then _ else if c = '-' then _
          else (pyIntNat 16 (c :: r)).map (fun n => (n : ℤ))) = _
    rw [if_neg h1, if_neg h2, pyIntNat16_digits (c :: r) hne hhex]
    rfl

theorem hexVal_fold_lt (ds : List Char) :
    ∀ a : ℕ, (∀ c ∈ ds, isHexDigitChar c = true) →
      List.foldl (fun x c => 16 * x + hexDigVal c) a ds < (a + 1) * 16 ^ ds.length := by
  induction ds with
  | nil =>
    intro a _
    simpa using (by omega : a < a + 1)
  | cons c rest ih =>
    intro a h
    have hc := pyDigVal_hex c (h c (by simp))
    have step := ih (16 * a + hexDigVal c) (fun x hx => h x (by simp [hx]))
    simp only [List.foldl_cons, List.length_cons]
    calc List.foldl (fun x c => 16 * x + hexDigVal c) (16 * a + hexDigVal c) rest
        < (16 * a + hexDigVal c + 1) * 16 ^ rest.length := step
      _ ≤ ((a + 1) * 16) * 16 ^ rest.length := by
          apply Nat.mul_le_mul_right
          omega
      _ = (a + 1) * 16 ^ (rest.length + 1) := by ring

theorem hexVal_lt (ds : List Char) (hhex : ∀ c ∈ ds, isHexDigitChar c = true) :
    hexVal ds < 2 ^ (4 * ds.length) := by
  have h := hexVal_fold_lt ds 0 hhex
  have h16 : (16 : ℕ) ^ ds.length = 2 ^ (4 * ds.length) := by
    rw [pow_mul]
    norm_num
  unfold hexVal
  omega

/-! ### General lemmas: the parameter dictionary -/

theorem lookup_cons_pair (k a1 : String) (a2 : Option String)
    (rest : List (String × Option String)) :
    List.lookup k ((a1, a2) :: rest) = if k = a1 then some a2 else List.lookup k rest := by
  by_cases h : k = a1
  · subst h
    simp [List.lookup]
  · rw [if_neg h]
    have hb : (k == a1) = false := by
      simp [h]
    simp [List.lookup, hb]

theorem lookup_map_update (d : List (String × Option String)) (name : String) (v : String)
    (k : String) :
    ((d.map (fun kv => if kv.1 = name then (kv.1, some v) else kv)).lookup k).isSome =
      (d.lookup k).isSome := by
  induction d with
  | nil => rfl
  | cons a rest ih =>
    obtain ⟨a1, a2⟩ := a
    simp only [List.map_cons]
    by_cases h : a1 = name
    · rw [if_pos h, lookup_cons_pair, lookup_cons_pair]
      by_cases hk : k = a1
      · rw [if_pos hk, if_pos hk]
        rfl
      · rw [if_neg hk, if_neg hk]
        exact ih
    · rw [if_neg h, lookup_cons_pair, lookup_cons_pair]
      by_cases hk : k = a1
      · rw [if_pos hk, if_pos hk]
      · rw [if_neg hk, if_neg hk]
        exact ih

theorem lookup_paramUpdate (d : ParamsDict) (n v k : String) :
    ((paramUpdate d n v).lookup k).isSome = (d.lookup k).isSome := by
  unfold paramUpdate
  by_cases h : (d.lookup n).isSome
  · rw [if_pos h]
    exact lookup_map_update d n v k
  · rw [if_neg h]

theorem lookup_read_fold (lines : List (String × String)) (d : ParamsDict) (k : String) :
    ((lines.foldl (fun d nv => paramUpdate d (pyLowerStr nv.1) nv.2) d).lookup k).isSome =
      (d.lookup k).isSome := by
  induction lines generalizing d with
  | nil => rfl
  | cons l rest ih =>
    rw [List.foldl_cons, ih, lookup_paramUpdate]

theorem outputsGuard_read_params (lines : List (String × String)) :
    outputsGuard (read_params_dict lines) = .ok () := by
  unfold outputsGuard read_params_dict
  rw [lookup_read_fold lines initParams "th", lookup_read_fold lines initParams "tsu"]
  rw [show (initParams.lookup "th").isSome = true from by decide]
  rw [show (initParams.lookup "tsu").isSome = true from by decide]
  rfl

theorem checkRequiredLoop_cases (ps : List String) (d : ParamsDict) :
    checkRequiredLoop ps d = .ok () ∨
      checkRequiredLoop ps d = .error (.nameError "ParamError") := by
  induction ps with
  | nil => exact Or.inl rfl
  | cons p rest ih =>
    unfold checkRequiredLoop
    by_cases h : pyTruthyOpt (getParam d p) = true
    · rw [if_pos h]
      exact ih
    · rw [if_neg h]
      exact Or.inr rfl

theorem checkRequired_no_paramMissing (d : ParamsDict) (s : String) :
    checkRequired d ≠ .error (.paramMissing s) := by
  unfold checkRequired
  rcases checkRequiredLoop_cases required_params d with h | h
  · rw [h]
    by_cases he : getParam d "edge" = some "rising" ∨ getParam d "edge" = some "falling"
    · rw [if_pos he]
      intro hcon
      cases hcon
    · rw [if_neg he]
      intro hcon
      cases hcon
  · rw [h]
    intro hcon
    cases hcon

theorem checkRequiredLoop_cons (p : String) (ps : List String) (d : ParamsDict) :
    checkRequiredLoop (p :: ps) d =
      if pyTruthyOpt (getParam d p) then checkRequiredLoop ps d
      else .error (.nameError "ParamError") := rfl

theorem checkRequired_missing_bithigh (d : ParamsDict)
    (h1 : pyTruthyOpt (getParam d "risefall") = true)
    (h2 : pyTruthyOpt (getParam d "bittime") = true)
    (h3 : pyTruthyOpt (getParam d "bitlow") = true)
    (h4 : pyTruthyOpt (getParam d "bithigh") = false) :
    checkRequired d = .error (.nameError "ParamError") := by
  have hloop : checkRequiredLoop required_params d = .error (.nameError "ParamError") := by
    unfold required_params
    rw [checkRequiredLoop_cons, if_pos h1, checkRequiredLoop_cons, if_pos h2,
      checkRequiredLoop_cons, if_pos h3, checkRequiredLoop_cons,
      if_neg (by rw [h4]; exact Bool.false_ne_true)]
  unfold checkRequired
  rw [hloop]

theorem checkRequired_edge_invalid (d : ParamsDict)
    (h1 : pyTruthyOpt (getParam d "risefall") = true)
    (h2 : pyTruthyOpt (getParam d "bittime") = true)
    (h3 : pyTruthyOpt (getParam d "bitlow") = true)
    (h4 : pyTruthyOpt (getParam d "bithigh") = true)
    (he : getParam d "edge" = some "none") :
    checkRequired d = .error (.assertionError "Invalid edge value: none") := by
  have hloop : checkRequiredLoop required_params d = .ok () := by
    unfold required_params
    rw [checkRequiredLoop_cons, if_pos h1, checkRequiredLoop_cons, if_pos h2,
      checkRequiredLoop_cons, if_pos h3, checkRequiredLoop_cons, if_pos h4]
    rfl
  unfold checkRequired
  rw [hloop, he]
  rw [if_neg (by decide : ¬((some "none" : Option String) = some "rising" ∨
    (some "none" : Option String) = some "falling"))]
  rfl

/-! ### Additional helper lemmas for the claim theorems -/

theorem natBin_ne_nil (n : ℕ) : natBin n ≠ [] := by
  unfold natBin
  by_cases h : n = 0
  · rw [if_pos h]
    simp
  · rw [if_neg h]
    match n, h with
    | m + 1, _ =>
      simp [natBinAux]

theorem genClockParams_eval_c9 :
    genClockParams ⟨"1", "8", "0", "5", "rising", none, none, none, none, none, none⟩ =
      some ⟨"1", "8", "0", "5", "rising", none, none, none, none, some (7 / 2), some 10⟩ := by
  have hu8 : unit "8" = some 8 := by
    have h := unit_digits "8" (by decide) (by decide)
    rw [h]
    norm_num [show digitsToNat "8".data = 8 from by decide]
  have hu1 : unit "1" = some 1 := by
    have h := unit_digits "1" (by decide) (by decide)
    rw [h]
    norm_num [show digitsToNat "1".data = 1 from by decide]
  simp only [genClockParams, hu8, hu1]
  norm_num [BusParams.mk.injEq]

theorem verifyBit_eval_c2 :
    (verifyBit ⟨1, 5, 1, 1, 0⟩ [0] [4] 0 2).bit = '1' ∧
    (verifyBit ⟨1, 5, 1, 1, 0⟩ [0] [4] 0 2).vavg = 4 := by
  norm_num [verifyBit, clockedge_index, clockedgeAux, pyAbs, logicThresh]

theorem checkRequired_shapes (d : ParamsDict) :
    checkRequired d = .ok d ∨
    checkRequired d = .error (.nameError "ParamError") ∨
    checkRequired d =
      .error (.assertionError ("Invalid edge value: " ++ pvRepr (getParam d "edge"))) := by
  unfold checkRequired
  rcases checkRequiredLoop_cases required_params d with h | h
  · rw [h]
    by_cases he : getParam d "edge" = some "rising" ∨ getParam d "edge" = some "falling"
    · rw [if_pos he]
      exact Or.inl rfl
    · rw [if_neg he]
      exact Or.inr (Or.inr rfl)
  · rw [h]
    exact Or.inr (Or.inl rfl)

theorem multList_suffix_ok : ∀ sm ∈ multList,
    (∀ c ∈ sm.1.data, pyLower c = c) ∧ sm.1.data ≠ [] ∧
    inUnitClass (sm.1.data.headD '0') = false ∧ sufMatch sm.1.data = some sm.1 ∧
    multList.lookup sm.1 = some sm.2 := by
  intro sm hsm
  fin_cases hsm <;>
    exact ⟨by decide, by decide, by decide, by decide, by simp [multList, List.lookup]⟩

/-! ### The claims -/

/-- C1: for every parameter set and non-empty bit vector, `gen_signal` puts
its first breakpoint at time 0 at the voltage of the first bit; a constant
vector produces exactly that one breakpoint; the first bit change, at bit
index `k + 1` with no change before it, produces exactly two further
breakpoints, at `(k + 1)` effective bit periods (at the old voltage) and at
that time plus `risefall` (at the new voltage), where the effective period
is `bittime + clockrisefall + (clockrisefall - risefall)`; and in the
concrete scenario `bitlow = 0`, `bithigh = 5`, `risefall = 200p`,
`bittime = 1n`, vector `"0011"`, the breakpoints are `(0, 0)`,
`(2·period, 0)`, `(2·period + 200p, 5)` for every `clockrisefall`. -/
theorem c1_gen_signal_breakpoints :
    (∀ (p : SigParams) (b : Char) (tail : List Char),
      ∃ more, gen_signal p (b :: tail) = some ((0, vbit p b) :: more)) ∧
    (∀ (p : SigParams) (b : Char) (n : ℕ),
      gen_signal p (List.replicate (n + 1) b) = some [(0, vbit p b)]) ∧
    (∀ (p : SigParams) (b c : Char) (k : ℕ) (rest : List Char), b ≠ c →
      gen_signal p (List.replicate (k + 1) b ++ c :: rest) =
        some ((0, vbit p b) ::
              (((k : ℚ) + 1) * effectiveBittime p, vbit p b) ::
              (((k : ℚ) + 1) * effectiveBittime p + p.risefall, vbit p c) ::
              genSignalAux p (effectiveBittime p) rest
                (((k : ℚ) + 1) * effectiveBittime p + p.risefall) c)) ∧
    (∀ (p : SigParams) (b c : Char) (k m : ℕ), b ≠ c →
      gen_signal p (List.replicate (k + 1) b ++ List.replicate (m + 1) c) =
        some [(0, vbit p b),
              (((k : ℚ) + 1) * effectiveBittime p, vbit p b),
              (((k : ℚ) + 1) * effectiveBittime p + p.risefall, vbit p c)]) ∧
    (∀ crf : ℚ,
      gen_signal ⟨5, 0, 2 / 10 ^ 10, 1 / 10 ^ 9, crf⟩ "0011".data =
        some [(0, 0),
              (2 * effectiveBittime ⟨5, 0, 2 / 10 ^ 10, 1 / 10 ^ 9, crf⟩, 0),
              (2 * effectiveBittime ⟨5, 0, 2 / 10 ^ 10, 1 / 10 ^ 9, crf⟩ + 2 / 10 ^ 10, 5)]) := by
  refine ⟨?_, ?_, ?_, ?_, ?_⟩
  · intro p b tail
    exact ⟨_, rfl⟩
  · intro p b n
    exact gen_signal_constant p b n
  · intro p b c k rest h
    exact gen_signal_first_change p b c k rest h
  · intro p b c k m h
    exact gen_signal_two_blocks p b c k m h
  · intro crf
    rw [show ("0011".data : List Char) = List.replicate (1 + 1) '0' ++ List.replicate (1 + 1) '1'
      from by decide]
    rw [gen_signal_two_blocks ⟨5, 0, 2 / 10 ^ 10, 1 / 10 ^ 9, crf⟩ '0' '1' 1 1 (by decide)]
    norm_num [vbit]
    decide

/-- C1 witness: the two-block part of `c1_gen_signal_breakpoints` applied at
a concrete parameter set and the vector `"001"`, with the hypothesis
`'0' ≠ '1'` discharged by `decide`. -/
theorem c1_gen_signal_breakpoints_witness :
    gen_signal ⟨5, 0, 1, 8, 2⟩ (List.replicate (1 + 1) '0' ++ List.replicate (0 + 1) '1') =
      some [(0, vbit ⟨5, 0, 1, 8, 2⟩ '0'),
            (((1 : ℚ) + 1) * effectiveBittime ⟨5, 0, 1, 8, 2⟩, vbit ⟨5, 0, 1, 8, 2⟩ '0'),
            (((1 : ℚ) + 1) * effectiveBittime ⟨5, 0, 1, 8, 2⟩ +
              (⟨5, 0, 1, 8, 2⟩ : SigParams).risefall, vbit ⟨5, 0, 1, 8, 2⟩ '1')] :=
  c1_gen_signal_breakpoints.2.2.2.1 ⟨5, 0, 1, 8, 2⟩ '0' '1' 1 0 (by decide)

/-- C2 counterexample: with `bitlow = 1`, `bithigh = 5`, a single-sample
window whose value is 4 classifies as `'1'` (the code threshold is
`(bithigh - bitlow) * 0.75 = 3`), although 4 does not exceed the claimed
threshold `bitlow + 0.75 * (bithigh - bitlow) = 4`; the claimed equivalence
is therefore false. -/
theorem c2_threshold_counterexample :
    ¬(((verifyBit ⟨1, 5, 1, 1, 0⟩ [0] [4] 0 2).bit = '1') ↔
      (1 + (3 / 4 : ℚ) * (5 - 1) < (verifyBit ⟨1, 5, 1, 1, 0⟩ [0] [4] 0 2).vavg)) := by
  intro hiff
  obtain ⟨hb, hv⟩ := verifyBit_eval_c2
  rw [hb, hv] at hiff
  have := hiff.mp rfl
  norm_num at this

/-- C2 amended: in every setup/hold window of `busverify`, the reconstructed
bit is `'1'` exactly when the sampled value strictly exceeds
`(bithigh - bitlow) * 0.75` (the code never adds `bitlow` back to the
threshold; the claim's formula agrees only when `bitlow = 0`); the sampled
value is the single sample at the setup index when the setup and hold
indices coincide, and otherwise the sum of the samples from the setup index
through the hold index inclusive divided by their count; the indices never
rewind. -/
theorem c2_threshold_amended (c : VCtx) (ts tr : List ℚ) (hp : ℕ) (et : ℚ) :
    ((verifyBit c ts tr hp et).bit = '1' ↔
      (c.bithigh - c.bitlow) * (3 / 4) < (verifyBit c ts tr hp et).vavg) ∧
    hp ≤ (verifyBit c ts tr hp et).su ∧
    (verifyBit c ts tr hp et).su ≤ (verifyBit c ts tr hp et).hold ∧
    ((verifyBit c ts tr hp et).su = (verifyBit c ts tr hp et).hold →
      (verifyBit c ts tr hp et).vavg = tr.getD (verifyBit c ts tr hp et).su 0) ∧
    ((verifyBit c ts tr hp et).su ≠ (verifyBit c ts tr hp et).hold →
      (verifyBit c ts tr hp et).vavg =
        ((tr.drop (verifyBit c ts tr hp et).su).take
            ((verifyBit c ts tr hp et).hold + 1 - (verifyBit c ts tr hp et).su)).sum /
          (((verifyBit c ts tr hp et).hold : ℚ) - ((verifyBit c ts tr hp et).su : ℚ) + 1)) := by
  have hsu : (verifyBit c ts tr hp et).su =
      hp + clockedge_index (ts.drop hp) (et - c.tsu) := rfl
  have hhold : (verifyBit c ts tr hp et).hold =
      (verifyBit c ts tr hp et).su +
        clockedge_index (ts.drop ((verifyBit c ts tr hp et).su)) (et + c.th + c.clockrisefall) :=
    rfl
  have hvavg : (verifyBit c ts tr hp et).vavg =
      if (verifyBit c ts tr hp et).hold - (verifyBit c ts tr hp et).su ≠ 0 then
        ((tr.drop (verifyBit c ts tr hp et).su).take
            ((verifyBit c ts tr hp et).hold + 1 - (verifyBit c ts tr hp et).su)).sum /
          (((verifyBit c ts tr hp et).hold : ℚ) - ((verifyBit c ts tr hp et).su : ℚ) + 1)
      else tr.getD ((verifyBit c ts tr hp et).su) 0 := rfl
  have hbit : (verifyBit c ts tr hp et).bit =
      if logicThresh c < (verifyBit c ts tr hp et).vavg then '1' else '0' := rfl
  have hle : (verifyBit c ts tr hp et).su ≤ (verifyBit c ts tr hp et).hold := by
    rw [hhold]
    exact Nat.le_add_right _ _
  refine ⟨?_, ?_, hle, ?_, ?_⟩
  · rw [hbit]
    unfold logicThresh
    by_cases h : (c.bithigh - c.bitlow) * (3 / 4) < (verifyBit c ts tr hp et).vavg
    · simp [h]
    · simp [h]
  · rw [hsu]
    exact Nat.le_add_right _ _
  · intro h
    rw [hvavg, if_neg (by omega)]
  · intro h
    rw [hvavg, if_pos (by omega)]

/-- C3: `expand_vector` expands `"[2](0,3)"` ascending as specified, but it
also expands `"[2](3,0)"` ascending — the direction flag compares the raw
pieces `"(3"` and `"0)"` as strings, and `'('` precedes every digit, so the
flag is always 1 — and a hex start bound such as in `"[2](0x1,2)"` raises
`ValueError` because the `0x` test runs against the piece that still starts
with `'('` and the fallback parses `"0x1"` in base 10. -/
theorem c3_expand_vector_direction :
    expand_vector "[2](0,3)".data = .ok ["00".data, "01".data, "10".data, "11".data] ∧
    expand_vector "[2](3,0)".data = .ok ["00".data, "01".data, "10".data, "11".data] ∧
    (expand_vector "[2](3,0)".data ==
      .ok ["11".data, "10".data, "01".data, "00".data]) = false ∧
    expand_vector "[2](0x1,2)".data = .error (.valueError "invalid literal for int()") ∧
    pyStrLt "(3".data "0)".data = true := by
  exact ⟨by decide, by decide, by decide, by decide, by decide⟩

/-- C4: when a required parameter is missing, the final check of
`read_params` evaluates the undefined name `ParamError` and so raises
`NameError`, not `ParamMissingError`; on a parameter list that sets only
`risefall`, `bittime` and `bitlow`, the slot for `bithigh` is still `None`
and the check produces the `NameError`; no input at all can make the check
produce a `ParamMissingError`. -/
theorem c4_missing_param_nameerror :
    checkRequired (read_params_dict [("risefall", "1n"), ("bittime", "10n"), ("bitlow", "0")]) =
      .error (.nameError "ParamError") ∧
    getParam (read_params_dict [("risefall", "1n"), ("bittime", "10n"), ("bitlow", "0")])
      "bithigh" = none ∧
    (∀ d : ParamsDict,
      checkRequired d = .ok d ∨
      checkRequired d = .error (.nameError "ParamError") ∨
      checkRequired d =
        .error (.assertionError ("Invalid edge value: " ++ pvRepr (getParam d "edge")))) := by
  exact ⟨by decide, by decide, checkRequired_shapes⟩

/-- C5: the bit-budget guard of `expand_vector` is `stop > 2^N`, not
`stop > 2^N - 1`: the token `"[2](0,4)"` does not raise `VectorRangeError`
but succeeds and emits the three-character string `"100"` among the
two-character ones, while `"[2](0,5)"` does raise `VectorRangeError`. -/
theorem c5_range_overflow_boundary :
    expand_vector "[2](0,4)".data =
      .ok ["00".data, "01".data, "10".data, "11".data, "100".data] ∧
    ("100".data : List Char).length = 3 ∧
    expand_vector "[2](0,5)".data = .error (.vectorRange "[2](0,5)".data) ∧
    stopOverflows 4 2 = false ∧
    stopOverflows 5 2 = true := by
  exact ⟨by decide, by decide, by decide, by decide, by decide⟩

/-- C6: a busfile with `edge=none` does not parse: the `read_params` edge
assertion admits only `rising` and `falling`, so `none` raises
`AssertionError` during parsing even with all required parameters present;
and no `InvalidEdgeError` exists anywhere — the invalid-edge branch of
`gen_clock` formats its message with the undefined name `params` and so
raises `NameError`. -/
theorem c6_edge_none_rejected :
    checkRequired (read_params_dict
        [("risefall", "1n"), ("bittime", "10n"), ("bitlow", "0"), ("bithigh", "5"),
         ("edge", "none")]) =
      .error (.assertionError "Invalid edge value: none") ∧
    getParam (read_params_dict
        [("risefall", "1n"), ("bittime", "10n"), ("bitlow", "0"), ("bithigh", "5"),
         ("edge", "none")]) "edge" = some "none" ∧
    pyTruthyOpt (getParam (read_params_dict
        [("risefall", "1n"), ("bittime", "10n"), ("bitlow", "0"), ("bithigh", "5"),
         ("edge", "none")]) "bithigh") = true ∧
    genClockEdge "none" = .error (.nameError "params") ∧
    genClockEdge "rising" = .ok () ∧
    genClockEdge "falling" = .ok () := by
  exact ⟨by decide, by decide, by decide, by decide, by decide, by decide⟩

/-- C7: the `Outputs:` guard of `parse_busfile` checks only that the keys
`'th'` and `'tsu'` are present in the parameter dictionary, and
`read_params` pre-initialises both keys to `None`, so the guard passes for
every parameter list — including one that never sets `tsu` or `th` — and no
`ParamMissingError` (nor any other error) is raised at that point. -/
theorem c7_outputs_guard_vacuous :
    (∀ lines : List (String × String), outputsGuard (read_params_dict lines) = .ok ()) ∧
    getParam (read_params_dict
        [("risefall", "1n"), ("bittime", "10n"), ("bitlow", "0"), ("bithigh", "5")]) "th" =
      none ∧
    getParam (read_params_dict
        [("risefall", "1n"), ("bittime", "10n"), ("bitlow", "0"), ("bithigh", "5")]) "tsu" =
      none ∧
    checkRequired (read_params_dict
        [("risefall", "1n"), ("bittime", "10n"), ("bitlow", "0"), ("bithigh", "5")]) =
      .ok (read_params_dict
        [("risefall", "1n"), ("bittime", "10n"), ("bitlow", "0"), ("bithigh", "5")]) := by
  exact ⟨outputsGuard_read_params, by decide, by decide, by decide⟩

/-- C8: `unit "3.0u"` and `unit "3.0e-6"` are exactly the same rational
(3/1000000), and for every decimal literal `pre` (in the `RE_UNIT`
character class) followed by an engineering suffix of the `mult` table,
`unit` returns exactly the product of the literal's value and the suffix's
multiplier, computed in exact (rational) decimal arithmetic. -/
theorem c8_unit_engineering_suffix :
    (unit "3.0u" = unit "3.0e-6" ∧ unit "3.0u" = some (3 / 1000000)) ∧
    (∀ (pre : List Char) (q : ℚ) (suf : String) (m : ℚ),
      (suf, m) ∈ multList →
      (∀ ch ∈ pre, inUnitClass ch = true) →
      parseDec pre = some q →
      unit ⟨pre ++ suf.data⟩ = some (q * m)) := by
  constructor
  · have hu : unit "3.0u" = some (3 / 1000000) := by
      have h1 : pyLowerL "3.0u".data = "3.0u".data := by decide
      have h2 : ("3.0u".data).takeWhile (fun c => inUnitClass c) = "3.0".data := by decide
      have h3 : ("3.0u".data).dropWhile (fun c => inUnitClass c) = "u".data := by decide
      have h7 : sufMatch "u".data = some "u" := by decide
      have h4 : parseDecParts "3.0".data = some (false, "3".data, "0".data, 0) := by decide
      rw [unit, h1, h2, h3, h7]
      rw [if_neg (show ¬("3.0".data = ([] : List Char)) from by decide)]
      simp only [parseDec, h4]
      simp [multList, List.lookup]
      norm_num [decValue, pow10, show digitsToNat ['3'] = 3 from by decide,
        show digitsToNat ['0'] = 0 from by decide]
    have he : unit "3.0e-6" = some (3 / 1000000) := by
      have h1 : pyLowerL "3.0e-6".data = "3.0e-6".data := by decide
      have h2 : ("3.0e-6".data).takeWhile (fun c => inUnitClass c) = "3.0e-6".data := by decide
      have h3 : ("3.0e-6".data).dropWhile (fun c => inUnitClass c) = [] := by decide
      have h7 : sufMatch ([] : List Char) = none := by decide
      have h4 : parseDecParts "3.0e-6".data = some (false, "3".data, "0".data, -6) := by decide
      rw [unit, h1, h2, h3, h7]
      rw [if_neg (show ¬("3.0e-6".data = ([] : List Char)) from by decide)]
      simp only [parseDec, h4]
      norm_num [decValue, pow10, show digitsToNat ['3'] = 3 from by decide,
        show digitsToNat ['0'] = 0 from by decide, show Int.toNat 6 = 6 from by decide]
    exact ⟨hu.trans he.symm, hu⟩
  · intro pre q suf m hm hclass hq
    obtain ⟨hlow, hne, hfc, hmatch, hlook⟩ := multList_suffix_ok (suf, m) hm
    exact unit_append_suffix pre q suf m hclass hq hlow hne hfc hmatch hlook

/-- C8 witness: the suffix part of `c8_unit_engineering_suffix` applied to
the literal `"2"` with suffix `"k"`. -/
theorem c8_unit_engineering_suffix_witness :
    (("k", ((10 : ℚ) ^ 3)) ∈ multList ∧ (∀ ch ∈ ['2'], inUnitClass ch = true) ∧
      parseDec ['2'] = some 2) ∧
    unit ⟨['2'] ++ "k".data⟩ = some (2 * 10 ^ 3) := by
  have hm : ("k", ((10 : ℚ) ^ 3)) ∈ multList := by simp [multList]
  have hq : parseDec ['2'] = some 2 := by
    rw [parseDec, show parseDecParts ['2'] = some (false, ['2'], [], 0) from by decide]
    norm_num [decValue, pow10, show digitsToNat ['2'] = 2 from by decide, digitsToNat_nil]
  exact ⟨⟨hm, by decide, hq⟩,
    c8_unit_engineering_suffix.2 ['2'] 2 "k" (10 ^ 3) hm (by decide) hq⟩

/-- C9 counterexample: `gen_clock` does not leave the parameter mapping
unchanged — on a fully parsed parameter set it returns a mapping that
additionally binds `clockhigh` and `clockperiod` ("Write these values back
into params"), so the result differs from the input mapping. -/
theorem c9_gen_clock_mutates_params :
    genClockParams ⟨"1", "8", "0", "5", "rising", none, none, none, none, none, none⟩ ≠
      some ⟨"1", "8", "0", "5", "rising", none, none, none, none, none, none⟩ := by
  rw [genClockParams_eval_c9]
  simp [BusParams.mk.injEq]

/-- C9 amended: `gen_clock` mutates the parsed parameter mapping in exactly
two slots — whenever it succeeds, the resulting mapping is the input mapping
with `clockhigh` and `clockperiod` overwritten and every other entry
(including the signal values, which `gen_signal` never writes) unchanged. -/
theorem c9_gen_clock_frame (p q : BusParams) (h : genClockParams p = some q) :
    ∃ ch cp : ℚ, q = { p with clockhigh := some ch, clockperiod := some cp } := by
  unfold genClockParams at h
  rcases hb : unit p.bittime with _ | bt
  · rw [hb] at h
    simp at h
  · rw [hb] at h
    simp only [Option.some_bind] at h
    rcases hc : unit (match p.clockrisefall with
        | some s => if s = "" then p.risefall else s
        | none => p.risefall) with _ | crf
    · rw [hc] at h
      simp at h
    · rw [hc] at h
      simp only [Option.some_bind, Option.some.injEq] at h
      exact ⟨_, _, h.symm⟩

/-- C9 witness: `c9_gen_clock_frame` applied at a concrete parameter set
whose `genClockParams` run is evaluated explicitly. -/
theorem c9_gen_clock_frame_witness :
    genClockParams ⟨"1", "8", "0", "5", "rising", none, none, none, none, none, none⟩ =
      some ⟨"1", "8", "0", "5", "rising", none, none, none, none, some (7 / 2), some 10⟩ ∧
    ∃ ch cp : ℚ,
      (⟨"1", "8", "0", "5", "rising", none, none, none, none, some (7 / 2), some 10⟩ :
          BusParams) =
        { (⟨"1", "8", "0", "5", "rising", none, none, none, none, none, none⟩ : BusParams) with
            clockhigh := some ch, clockperiod := some cp } :=
  ⟨genClockParams_eval_c9, c9_gen_clock_frame _ _ genClockParams_eval_c9⟩

/-- C10: a `"0x"` token with `h ≥ 1` hex digits converts, via `bin_str`, to
a bit string of exactly `4·h` characters, all `'0'`/`'1'`, whose binary
value is the hex value (so each hex digit contributes exactly four
positions to the row width); a `"0b"` token returns the remainder of the
token unchanged; any other token passes through verbatim; and
`parse_word` (`bus2pwl/bus2pwl.py`) computes exactly the same function. -/
theorem c10_bin_str_tokens :
    (∀ ds : List Char, ds ≠ [] → (∀ ch ∈ ds, isHexDigitChar ch = true) →
      ∃ out, bin_str ('0' :: 'x' :: ds) = .ok out ∧
        out.length = 4 * ds.length ∧
        (∀ ch ∈ out, ch = '0' ∨ ch = '1') ∧
        bitsVal out = hexVal ds) ∧
    (∀ s : List Char, bin_str ('0' :: 'b' :: s) = .ok s) ∧
    (∀ t : List Char, ['0', 'x'].isPrefixOf t = false → ['0', 'b'].isPrefixOf t = false →
      bin_str t = .ok t) ∧
    (∀ t : List Char, parse_word t = bin_str t) := by
  refine ⟨?_, ?_, ?_, fun t => rfl⟩
  · intro ds hne hhex
    have hlen1 : 1 ≤ ds.length := by
      cases ds with
      | nil => exact absurd rfl hne
      | cons a b => simp
    have hint := pyIntBase16_digits ds hne hhex
    have hpfx : (['0', 'x'].isPrefixOf ('0' :: 'x' :: ds)) = true := by
      simp [List.isPrefixOf]
    have hbin : bin_str ('0' :: 'x' :: ds) =
        .ok (zfill (natBin (hexVal ds)) (4 * ds.length)) := by
      unfold bin_str
      rw [if_pos hpfx]
      rw [show ('0' :: 'x' :: ds).drop 2 = ds from rfl, hint]
      rw [show ('0' :: 'x' :: ds).length - 2 = ds.length from by simp]
      show PyResult.ok (zfill (pyBinDrop2 ((hexVal ds : ℤ))) (4 * ds.length)) = _
      rw [show pyBinDrop2 ((hexVal ds : ℤ)) = natBin (hexVal ds) from by
        unfold pyBinDrop2
        rw [if_neg (by omega : ¬((hexVal ds : ℤ) < 0))]
        rw [Int.toNat_ofNat]]
    obtain ⟨hv, hbits, hlen⟩ := natBin_spec (hexVal ds)
    obtain ⟨c0, rest0, hnb⟩ := List.exists_cons_of_ne_nil (natBin_ne_nil (hexVal ds))
    have hc0 : c0 = '0' ∨ c0 = '1' := hbits c0 (by rw [hnb]; exact List.mem_cons_self c0 rest0)
    have hzf := zfill_bits c0 rest0 (4 * ds.length) hc0
    have hnblen : (natBin (hexVal ds)).length ≤ 4 * ds.length :=
      hlen (4 * ds.length) (by omega) (hexVal_lt ds hhex)
    refine ⟨zfill (natBin (hexVal ds)) (4 * ds.length), hbin, ?_, ?_, ?_⟩
    · rw [hnb, hzf.2]
      rw [← hnb]
      exact Nat.max_eq_left hnblen
    · intro ch hch
      rw [hnb, hzf.1] at hch
      rcases List.mem_append.mp hch with h | h
      · exact Or.inl (List.eq_of_mem_replicate h)
      · exact hbits ch (by rw [hnb]; exact h)
    · rw [hnb, hzf.1, bitsVal_pad, ← hnb, hv]
  · intro s
    have h1 : (['0', 'x'].isPrefixOf ('0' :: 'b' :: s)) = false := by
      simp [List.isPrefixOf]
    have h2 : (['0', 'b'].isPrefixOf ('0' :: 'b' :: s)) = true := by
      simp [List.isPrefixOf]
    unfold bin_str
    rw [h1, h2]
    simp
  · intro t h1 h2
    unfold bin_str
    rw [h1, h2]
    simp

/-- C10 witness: the hex part of `c10_bin_str_tokens` applied to the token
`"0xa"`. -/
theorem c10_bin_str_tokens_witness :
    ∃ out, bin_str ('0' :: 'x' :: ['a']) = .ok out ∧
      out.length = 4 * (['a'] : List Char).length ∧
      (∀ ch ∈ out, ch = '0' ∨ ch = '1') ∧
      bitsVal out = hexVal ['a'] :=
  c10_bin_str_tokens.1 ['a'] (by decide) (by decide)

/-- C2 amended witness: `c2_threshold_amended` applied at a concrete
single-sample window, with the coinciding-indices hypothesis discharged by
evaluation. -/
theorem c2_threshold_amended_witness :
    (verifyBit ⟨1, 5, 1, 1, 0⟩ [0] [4] 0 2).vavg =
      ([4] : List ℚ).getD (verifyBit ⟨1, 5, 1, 1, 0⟩ [0] [4] 0 2).su 0 :=
  (c2_threshold_amended ⟨1, 5, 1, 1, 0⟩ [0] [4] 0 2).2.2.2.1
    (by norm_num [verifyBit, clockedge_index, clockedgeAux, pyAbs])
